import Mathlib

/-!
Shallow embedding of the go-cache repository (package `cache`).

The Go store is `map[K]*item[V]`; we model it as an association list
`List (K × Item V)` whose order stands for the (arbitrary) Go map
iteration order, with the invariant that keys are pairwise distinct
(`KeysNodup`), which every Go map satisfies.  Time values are `Int`
nanoseconds (Go `int64` from `UnixNano`); `time.Now()` is passed in as an
explicit `now` parameter, and `time.Duration` arguments become `Int`
nanoseconds as well.  Read operations (`Get`, `GetSafe`, `GetValue`) are
pure functions of the store — mirroring that the Go code performs no
mutation on the read path — while write operations return the new store.
The Go zero value `*new(V)` is modelled by `default : V` via `Inhabited`.
-/

namespace GoCache

/-- Model of Go `item[V]`: a stored value together with its absolute
expiration timestamp in nanoseconds; `expiration = 0` means no expiration. -/
structure Item (V : Type) where
  value : V
  expiration : Int
  deriving Repr, DecidableEq

/-- Model of Go `item.isExpired(now int64)`: an item with `expiration == 0`
never expires; otherwise it is expired exactly when `now > expiration`. -/
def Item.isExpired {V : Type} (it : Item V) (now : Int) : Bool :=
  if it.expiration = 0 then false else decide (it.expiration < now)

/-- Model of the Go map `map[K]*item[V]`: an association list whose order
stands for the Go iteration order. -/
abbrev Store (K V : Type) := List (K × Item V)

variable {K V : Type} [DecidableEq K]

/-- Model of the Go map read `c.items[key]`. -/
def lookupItem : Store K V → K → Option (Item V)
  | [], _ => none
  | (k', it) :: rest, k => if k = k' then some it else lookupItem rest k

/-- Model of the Go map write `c.items[key] = it`: replace the binding in
place when the key is present, otherwise add a new binding. -/
def insertItem : Store K V → K → Item V → Store K V
  | [], k, it => [(k, it)]
  | (k', it') :: rest, k, it =>
    if k = k' then (k', it) :: rest else (k', it') :: insertItem rest k it

/-- Model of the Go map delete `delete(c.items, key)`. -/
def eraseKey : Store K V → K → Store K V
  | [], _ => []
  | (k', it) :: rest, k => if k = k' then rest else (k', it) :: eraseKey rest k

/-- Keys of the store in iteration order. -/
def storeKeys (s : Store K V) : List K := s.map Prod.fst

/-- Invariant of every Go map: keys are pairwise distinct. -/
abbrev KeysNodup (s : Store K V) : Prop := (s.map Prod.fst).Nodup

/-- Model of the shared TTL-to-timestamp computation in every `SetWithTTL` /
`SetAllWithTTL`: `expiration = now + ttl` when `ttl > 0`, else `0`. -/
def computeExpiration (now ttl : Int) : Int :=
  if 0 < ttl then now + ttl else 0

/-- Model of `cache.Get`: the value and `found` flag, with no expiration
check and no mutation. -/
def get [Inhabited V] (s : Store K V) (k : K) : V × Bool :=
  match lookupItem s k with
  | some it => (it.value, true)
  | none => (default, false)

/-- Model of `cache.GetSafe`: like `Get` but a present-yet-expired entry is
reported as absent; the store is not mutated. -/
def getSafe [Inhabited V] (s : Store K V) (k : K) (now : Int) : V × Bool :=
  match lookupItem s k with
  | some it => if it.isExpired now then (default, false) else (it.value, true)
  | none => (default, false)

/-- Model of `cache.GetValue`: the value alone, `default` on a miss. -/
def getValue [Inhabited V] (s : Store K V) (k : K) : V :=
  match lookupItem s k with
  | some it => it.value
  | none => default

/-- Model of `cache.Size`. -/
def size (s : Store K V) : Nat := s.length

/-- Model of `cache.Remove`. -/
def removeKey (s : Store K V) (k : K) : Store K V := eraseKey s k

/-- Model of `cacheWithoutSize.SetWithTTL`: unconditional insert/replace. -/
def setWithTTLNoSize (s : Store K V) (k : K) (v : V) (now ttl : Int) :
    Store K V :=
  insertItem s k ⟨v, computeExpiration now ttl⟩

/-- Model of the insertion loop `for key, value := range m { c.items[key] = … }`
shared by both `SetAllWithTTL` variants: every batch entry is inserted with
the one shared expiration timestamp. -/
def insertAll (s : Store K V) (m : List (K × V)) (exp : Int) : Store K V :=
  m.foldl (fun acc kv => insertItem acc kv.1 ⟨kv.2, exp⟩) s

/-- Model of `cacheWithoutSize.SetAllWithTTL`. -/
def setAllWithTTLNoSize (s : Store K V) (m : List (K × V)) (now ttl : Int) :
    Store K V :=
  insertAll s m (computeExpiration now ttl)

/-- Model of `cacheWithSize.SetWithTTL`: when `len(items)+1 > maxSize` and the
key is not yet present, the first key in iteration order is deleted (the
`for k := range c.items { delete; break }` loop), then the entry is inserted. -/
def setWithTTLSize (maxSize : Nat) (s : Store K V) (k : K) (v : V)
    (now ttl : Int) : Store K V :=
  let expiration := computeExpiration now ttl
  let s1 :=
    if s.length + 1 > maxSize then
      if (lookupItem s k).isNone then s.tail else s
    else s
  insertItem s1 k ⟨v, expiration⟩

/-- Model of `cacheWithSize.SetAllWithTTL`: when `len(items) + len(m) >
maxSize`, the overflow `x = len(items) + len(m) - maxSize` (computed from
`len(m)` with no key deduplication) is evicted: the whole store is replaced
by a fresh empty map when `len(items) <= x`, else the first `x` keys in
iteration order are deleted; then every batch entry is inserted. -/
def setAllWithTTLSize (maxSize : Nat) (s : Store K V) (m : List (K × V))
    (now ttl : Int) : Store K V :=
  let expiration := computeExpiration now ttl
  let s1 :=
    if s.length + m.length > maxSize then
      if s.length ≤ s.length + m.length - maxSize then ([] : Store K V)
      else s.drop (s.length + m.length - maxSize)
    else s
  insertAll s1 m expiration

/-- Model of `cache.CleanExpired`: first collect (under the read lock) the
keys expired as of `now` sampled once, then (under the write lock) delete
exactly the collected keys. -/
def cleanExpired (s : Store K V) (now : Int) : Store K V :=
  let keys := (s.filter (fun e => e.2.isExpired now)).map Prod.fst
  keys.foldl (fun acc k => eraseKey acc k) s

/-- Lifecycle state of the `cache` struct for `Close`: the `items` map, the
`running` flag, whether the `done` channel has already been closed, and a
count of stop signals sent (each Go `close(c.done)` is one signal). -/
structure CState (K V : Type) where
  items : Store K V
  running : Bool
  doneClosed : Bool
  stopSignals : Nat

/-- Model of the lifecycle part of `New`: a fresh empty store, with
`running = true` and a fresh (open) `done` channel exactly when
`cleanupInterval > 0`. -/
def newCache (cleanupInterval : Int) : CState K V :=
  { items := [], running := decide (0 < cleanupInterval),
    doneClosed := false, stopSignals := 0 }

/-- Model of `cache.Close`: when `running`, clear the flag and close the
`done` channel (a Go `close` of an already-closed channel panics, modelled
as `none`); in every case reinitialize `items` to an empty map. -/
def closeCache (c : CState K V) : Option (CState K V) :=
  if c.running then
    if c.doneClosed then none
    else some { items := [], running := false, doneClosed := true,
                stopSignals := c.stopSignals + 1 }
  else some { c with items := [] }

section Lemmas

/-- Looking a key up after `insertItem` finds the new item at that key and
leaves every other key unchanged. -/
theorem lookupItem_insertItem (s : Store K V) (k : K) (it : Item V) (k' : K) :
    lookupItem (insertItem s k it) k' =
      if k' = k then some it else lookupItem s k' := by
  induction s with
  | nil =>
    by_cases h : k' = k <;> simp [insertItem, lookupItem, h]
  | cons e rest ih =>
    obtain ⟨k0, it0⟩ := e
    by_cases hk : k = k0
    · subst hk
      by_cases h' : k' = k <;> simp [insertItem, lookupItem, h']
    · by_cases h' : k' = k0
      · subst h'
        simp [insertItem, lookupItem, hk, Ne.symm hk]
      · simp [insertItem, lookupItem, hk, h', ih]

/-- Length of the store after `insertItem`: unchanged when the key was
present, one more when it was absent. -/
theorem length_insertItem (s : Store K V) (k : K) (it : Item V) :
    (insertItem s k it).length =
      if (lookupItem s k).isSome then s.length else s.length + 1 := by
  induction s with
  | nil => simp [insertItem, lookupItem]
  | cons e rest ih =>
    obtain ⟨k0, it0⟩ := e
    by_cases hk : k = k0
    · simp [insertItem, lookupItem, hk]
    · simp only [insertItem, lookupItem, if_neg hk, List.length_cons, ih]
      by_cases h : (lookupItem rest k).isSome <;> simp [h]

/-- A key is absent from the store exactly when `lookupItem` misses. -/
theorem lookupItem_eq_none_iff (s : Store K V) (k : K) :
    lookupItem s k = none ↔ k ∉ s.map Prod.fst := by
  induction s with
  | nil => simp [lookupItem]
  | cons e rest ih =>
    obtain ⟨k0, it0⟩ := e
    by_cases hk : k = k0 <;> simp [lookupItem, hk, ih]

/-- The store after `eraseKey` is a sublist of the original store. -/
theorem eraseKey_sublist (s : Store K V) (k : K) :
    List.Sublist (eraseKey s k) s := by
  induction s with
  | nil => simp [eraseKey]
  | cons e rest ih =>
    obtain ⟨k0, it0⟩ := e
    by_cases hk : k = k0
    · simp [eraseKey, hk, List.sublist_cons_self]
    · simpa [eraseKey, hk] using List.Sublist.cons₂ (k0, it0) ih

/-- Distinctness of keys survives `eraseKey`. -/
theorem keysNodup_eraseKey {s : Store K V} (h : KeysNodup s) (k : K) :
    KeysNodup (eraseKey s k) :=
  List.Nodup.sublist (List.Sublist.map Prod.fst (eraseKey_sublist s k)) h

/-- On a store with distinct keys, `eraseKey` removes exactly the binding of
the given key. -/
theorem lookupItem_eraseKey {s : Store K V} (h : KeysNodup s) (k k' : K) :
    lookupItem (eraseKey s k) k' =
      if k' = k then none else lookupItem s k' := by
  induction s with
  | nil => by_cases hk : k' = k <;> simp [eraseKey, lookupItem, hk]
  | cons e rest ih =>
    obtain ⟨k0, it0⟩ := e
    have hrest : KeysNodup rest := by
      simpa [KeysNodup] using (List.nodup_cons.mp h).2
    have hk0 : k0 ∉ rest.map Prod.fst := by
      simpa [KeysNodup] using (List.nodup_cons.mp h).1
    by_cases hk : k = k0
    · subst hk
      by_cases h' : k' = k
      · subst h'
        simp [eraseKey, (lookupItem_eq_none_iff rest k').mpr hk0]
      · simp [eraseKey, lookupItem, h']
    · by_cases h' : k' = k0
      · subst h'
        simp [eraseKey, lookupItem, hk, Ne.symm hk]
      · simp [eraseKey, lookupItem, hk, h', ih hrest]

/-- Folding `eraseKey` over a list of keys deletes exactly those keys. -/
theorem lookupItem_foldl_eraseKey (keys : List K) :
    ∀ (s : Store K V), KeysNodup s → ∀ (k : K),
      lookupItem (keys.foldl (fun acc k => eraseKey acc k) s) k =
        if k ∈ keys then none else lookupItem s k := by
  induction keys with
  | nil => intro s _ k; simp
  | cons k0 rest ih =>
    intro s hs k
    have hs' : KeysNodup (eraseKey s k0) := keysNodup_eraseKey hs k0
    have step : (k0 :: rest).foldl (fun acc k => eraseKey acc k) s =
        rest.foldl (fun acc k => eraseKey acc k) (eraseKey s k0) := rfl
    rw [step, ih (eraseKey s k0) hs' k, lookupItem_eraseKey hs k0 k]
    by_cases h1 : k ∈ rest <;> by_cases h2 : k = k0 <;> simp [h1, h2]

/-- On a store with distinct keys, a key is among the keys of the entries
selected by a filter exactly when its own entry passes the filter. -/
theorem mem_filter_keys_iff {s : Store K V} (h : KeysNodup s)
    (p : K × Item V → Bool) (k : K) :
    k ∈ (s.filter p).map Prod.fst ↔
      ∃ it, lookupItem s k = some it ∧ p (k, it) = true := by
  induction s with
  | nil => simp [lookupItem]
  | cons e rest ih =>
    obtain ⟨k0, it0⟩ := e
    have hrest : KeysNodup rest := by
      simpa [KeysNodup] using (List.nodup_cons.mp h).2
    have hk0 : k0 ∉ rest.map Prod.fst := by
      simpa [KeysNodup] using (List.nodup_cons.mp h).1
    by_cases hk : k = k0
    · subst hk
      have hnone : lookupItem rest k = none :=
        (lookupItem_eq_none_iff rest k).mpr hk0
      by_cases hp : p (k, it0) = true
      · simp [List.filter_cons, hp, lookupItem]
      · have : k ∉ (rest.filter p).map Prod.fst := by
          intro hmem
          obtain ⟨it, hit, _⟩ := (ih hrest).mp hmem
          simp [hnone] at hit
        simp only [List.filter_cons]
        rw [if_neg (by simpa using hp)]
        simp [lookupItem, this, hp]
    · by_cases hp : p (k0, it0) = true
      · simp [List.filter_cons, hp, lookupItem, hk, ih hrest]
      · simp only [List.filter_cons]
        rw [if_neg (by simpa using hp)]
        simp [lookupItem, hk, ih hrest]

/-- Characterization of `cleanExpired` on a store with distinct keys: an
entry survives—unchanged—exactly when it was not expired at the sampled
instant. -/
theorem lookupItem_cleanExpired {s : Store K V} (h : KeysNodup s)
    (now : Int) (k : K) :
    lookupItem (cleanExpired s now) k =
      match lookupItem s k with
      | some it => if it.isExpired now then none else some it
      | none => none := by
  unfold cleanExpired
  rw [lookupItem_foldl_eraseKey _ s h k]
  rcases hlook : lookupItem s k with _ | it
  · simp [(lookupItem_eq_none_iff s k).mp hlook,
      mem_filter_keys_iff h (fun e => e.2.isExpired now) k, hlook]
  · by_cases hexp : it.isExpired now = true
    · have : k ∈ (s.filter (fun e => e.2.isExpired now)).map Prod.fst :=
        (mem_filter_keys_iff h _ k).mpr ⟨it, hlook, hexp⟩
      simp [this, hexp]
    · have : k ∉ (s.filter (fun e => e.2.isExpired now)).map Prod.fst := by
        intro hmem
        obtain ⟨it', hit', hp'⟩ := (mem_filter_keys_iff h _ k).mp hmem
        rw [hlook] at hit'
        cases hit'
        exact hexp hp'
      simp [this, hlook, hexp]

/-- Inserting a batch never touches keys outside the batch. -/
theorem lookupItem_insertAll_not_mem (m : List (K × V)) :
    ∀ (s : Store K V) (exp : Int) (k : K), k ∉ m.map Prod.fst →
      lookupItem (insertAll s m exp) k = lookupItem s k := by
  induction m with
  | nil => intro s exp k _; rfl
  | cons kv rest ih =>
    intro s exp k hk
    have hk1 : k ≠ kv.1 := fun h => hk (by simp [h])
    have hk2 : k ∉ rest.map Prod.fst := fun h => hk (by simp [h])
    have step : insertAll s (kv :: rest) exp =
        insertAll (insertItem s kv.1 ⟨kv.2, exp⟩) rest exp := rfl
    rw [step, ih _ exp k hk2, lookupItem_insertItem, if_neg hk1]

/-- When the batch has distinct keys, each batch entry ends up in the store
with the shared expiration timestamp. -/
theorem lookupItem_insertAll_mem (m : List (K × V))
    (hm : (m.map Prod.fst).Nodup) :
    ∀ (s : Store K V) (exp : Int) (k : K) (v : V), (k, v) ∈ m →
      lookupItem (insertAll s m exp) k = some ⟨v, exp⟩ := by
  induction m with
  | nil => intro s exp k v hkv; simp at hkv
  | cons kv rest ih =>
    intro s exp k v hkv
    have hrest : (rest.map Prod.fst).Nodup := (List.nodup_cons.mp hm).2
    have step : insertAll s (kv :: rest) exp =
        insertAll (insertItem s kv.1 ⟨kv.2, exp⟩) rest exp := rfl
    rcases List.mem_cons.mp hkv with heq | hmem
    · have hk : k ∉ rest.map Prod.fst := by
        have := (List.nodup_cons.mp hm).1
        rw [← heq] at this
        simpa using this
      rw [step, lookupItem_insertAll_not_mem rest _ exp k hk,
        lookupItem_insertItem]
      rw [← heq]
      simp
    · exact step ▸ ih hrest _ exp k v hmem

/-- Inserting one entry grows the store by at most one. -/
theorem length_insertItem_le (s : Store K V) (k : K) (it : Item V) :
    (insertItem s k it).length ≤ s.length + 1 := by
  rw [length_insertItem]
  by_cases h : (lookupItem s k).isSome <;> simp [h]

/-- Inserting a batch grows the store by at most the batch length. -/
theorem length_insertAll_le (m : List (K × V)) :
    ∀ (s : Store K V) (exp : Int),
      (insertAll s m exp).length ≤ s.length + m.length := by
  induction m with
  | nil => intro s exp; simp [insertAll]
  | cons kv rest ih =>
    intro s exp
    have step : insertAll s (kv :: rest) exp =
        insertAll (insertItem s kv.1 ⟨kv.2, exp⟩) rest exp := rfl
    rw [step]
    calc (insertAll (insertItem s kv.1 ⟨kv.2, exp⟩) rest exp).length
        ≤ (insertItem s kv.1 ⟨kv.2, exp⟩).length + rest.length := ih _ exp
      _ ≤ (s.length + 1) + rest.length := by
          exact Nat.add_le_add_right (length_insertItem_le s kv.1 _) _
      _ = s.length + (kv :: rest).length := by simp; omega

/-- A key missing from the store is also missing from its tail. -/
theorem lookupItem_tail_eq_none {s : Store K V} {k : K}
    (h : lookupItem s k = none) : lookupItem s.tail k = none := by
  cases s with
  | nil => simp [lookupItem]
  | cons e rest =>
    obtain ⟨k0, it0⟩ := e
    by_cases hk : k = k0
    · simp [lookupItem, hk] at h
    · simpa [lookupItem, hk] using h

end Lemmas

section Claims

/-- Claim C6: `GetSafe(key)` returns `(value, true)` exactly when the key is
present and its entry is not expired at the current instant; if the key is
absent, or present but expired, it returns `(default, false)`.  The store is
left unchanged: `getSafe` is a pure function of the store, mirroring the Go
read path which performs no mutation. -/
theorem claim_C6_getSafe [Inhabited V] (s : Store K V) (k : K) (now : Int) :
    ((getSafe s k now).2 = true ↔
        ∃ it, lookupItem s k = some it ∧ it.isExpired now = false) ∧
    (∀ it, lookupItem s k = some it → it.isExpired now = false →
        getSafe s k now = (it.value, true)) ∧
    (∀ it, lookupItem s k = some it → it.isExpired now = true →
        getSafe s k now = (default, false)) ∧
    (lookupItem s k = none → getSafe s k now = (default, false)) := by
  unfold getSafe
  rcases h : lookupItem s k with _ | it
  · simp
  · by_cases hexp : it.isExpired now = true
    · simp [hexp]
    · simp only [Bool.not_eq_true] at hexp
      simp [hexp]

/-- Witness for C6 on a concrete store: key `1` is live at instant `50`,
key `2` is present but expired, key `3` is absent. -/
theorem claim_C6_witness :
    lookupItem [(1, (⟨10, 0⟩ : Item Nat)), (2, ⟨20, 7⟩)] 1 = some ⟨10, 0⟩ ∧
    getSafe [(1, (⟨10, 0⟩ : Item Nat)), (2, ⟨20, 7⟩)] 1 50 = (10, true) ∧
    getSafe [(1, (⟨10, 0⟩ : Item Nat)), (2, ⟨20, 7⟩)] 2 50 = (default, false) ∧
    getSafe [(1, (⟨10, 0⟩ : Item Nat)), (2, ⟨20, 7⟩)] 3 50 = (default, false) :=
  ⟨by decide,
   (claim_C6_getSafe [(1, ⟨10, 0⟩), (2, ⟨20, 7⟩)] 1 50).2.1 ⟨10, 0⟩
     (by decide) (by decide),
   (claim_C6_getSafe [(1, ⟨10, 0⟩), (2, ⟨20, 7⟩)] 2 50).2.2.1 ⟨20, 7⟩
     (by decide) (by decide),
   (claim_C6_getSafe [(1, ⟨10, 0⟩), (2, ⟨20, 7⟩)] 3 50).2.2.2 (by decide)⟩

/-- Claim C7: `Get(key)` returns the stored value and `found = true` whenever
the key is present — for any expiration timestamp, since `get` takes no
clock at all — and `(default, false)` on a miss; it is a pure function of the
store (no lazy eviction on read), and `GetValue` is exactly its value
component. -/
theorem claim_C7_get [Inhabited V] (s : Store K V) (k : K) :
    (∀ it, lookupItem s k = some it → get s k = (it.value, true)) ∧
    (lookupItem s k = none → get s k = (default, false)) ∧
    getValue s k = (get s k).1 := by
  unfold get getValue
  rcases h : lookupItem s k with _ | it <;> simp

/-- Witness for C7 on a concrete store: key `2` is present with an expired
timestamp yet still found by `get`; key `9` is absent. -/
theorem claim_C7_witness :
    lookupItem [(2, (⟨20, 7⟩ : Item Nat))] 2 = some ⟨20, 7⟩ ∧
    get [(2, (⟨20, 7⟩ : Item Nat))] 2 = (20, true) ∧
    get [(2, (⟨20, 7⟩ : Item Nat))] 9 = (default, false) ∧
    getValue [(2, (⟨20, 7⟩ : Item Nat))] 2 = (get [(2, (⟨20, 7⟩ : Item Nat))] 2).1 :=
  ⟨by decide,
   (claim_C7_get [(2, ⟨20, 7⟩)] 2).1 ⟨20, 7⟩ (by decide),
   (claim_C7_get [(2, ⟨20, 7⟩)] 9).2.1 (by decide),
   (claim_C7_get [(2, ⟨20, 7⟩)] 2).2.2⟩

/-- Claim C8: the unbounded `SetWithTTL(key, value, ttl)` stores the entry
with expiration `now + ttl` when `ttl > 0` and with expiration `0` (never
expires — not "already expired") when `ttl ≤ 0`; the insert/replace is
unconditional; an immediate `Get(key)` returns `(value, true)`, and with
`ttl ≤ 0` even `GetSafe` finds the entry at every later instant. -/
theorem claim_C8_setNoSize [Inhabited V] (s : Store K V) (k : K) (v : V)
    (now ttl : Int) :
    setWithTTLNoSize s k v now ttl =
        insertItem s k ⟨v, computeExpiration now ttl⟩ ∧
    (0 < ttl → computeExpiration now ttl = now + ttl) ∧
    (ttl ≤ 0 → computeExpiration now ttl = 0) ∧
    get (setWithTTLNoSize s k v now ttl) k = (v, true) ∧
    (ttl ≤ 0 → ∀ t : Int, getSafe (setWithTTLNoSize s k v now ttl) k t = (v, true)) := by
  refine ⟨rfl, ?_, ?_, ?_, ?_⟩
  · intro h; simp [computeExpiration, h]
  · intro h; simp [computeExpiration, not_lt.mpr h]
  · unfold get setWithTTLNoSize
    rw [lookupItem_insertItem]
    simp
  · intro h t
    unfold getSafe setWithTTLNoSize
    rw [lookupItem_insertItem]
    simp [Item.isExpired, computeExpiration, not_lt.mpr h]

/-- Witness for C8 at `now = 100`: a positive TTL of `30` gives expiration
`130`; a TTL of `-5 ≤ 0` gives expiration `0` and the entry is still found
safe at the much later instant `1000000`. -/
theorem claim_C8_witness :
    (0 : Int) < 30 ∧ computeExpiration 100 30 = 130 ∧
    (-5 : Int) ≤ 0 ∧ computeExpiration 100 (-5) = 0 ∧
    get (setWithTTLNoSize ([] : Store Nat Nat) 4 44 100 30) 4 = (44, true) ∧
    getSafe (setWithTTLNoSize ([] : Store Nat Nat) 4 44 100 (-5)) 4 1000000 =
      (44, true) :=
  ⟨by decide,
   (claim_C8_setNoSize ([] : Store Nat Nat) 4 44 100 30).2.1 (by decide),
   by decide,
   (claim_C8_setNoSize ([] : Store Nat Nat) 4 44 100 (-5)).2.2.1 (by decide),
   (claim_C8_setNoSize ([] : Store Nat Nat) 4 44 100 30).2.2.2.1,
   (claim_C8_setNoSize ([] : Store Nat Nat) 4 44 100 (-5)).2.2.2.2
     (by decide) 1000000⟩

/-- Claim C5: `CleanExpired`, with "now" sampled once at sweep start,
deletes exactly the keys expired at that sampled instant: afterwards every
entry expired at the sample time is absent, and every entry not expired then
is still present with its value and expiration unchanged. -/
theorem claim_C5_cleanExpired (s : Store K V) (now : Int) (h : KeysNodup s) :
    (∀ k it, lookupItem s k = some it → it.isExpired now = true →
        lookupItem (cleanExpired s now) k = none) ∧
    (∀ k it, lookupItem s k = some it → it.isExpired now = false →
        lookupItem (cleanExpired s now) k = some it) := by
  constructor
  · intro k it hl hexp
    rw [lookupItem_cleanExpired h now k, hl]
    simp [hexp]
  · intro k it hl hexp
    rw [lookupItem_cleanExpired h now k, hl]
    simp [hexp]

/-- Witness for C5 at sweep instant `50`: key `1` (expired at `5`) is swept,
key `2` (no expiration) and key `3` (expires at `100`) survive unchanged. -/
theorem claim_C5_witness :
    KeysNodup [(1, (⟨10, 5⟩ : Item Nat)), (2, ⟨20, 0⟩), (3, ⟨30, 100⟩)] ∧
    lookupItem (cleanExpired
      [(1, (⟨10, 5⟩ : Item Nat)), (2, ⟨20, 0⟩), (3, ⟨30, 100⟩)] 50) 1 = none ∧
    lookupItem (cleanExpired
      [(1, (⟨10, 5⟩ : Item Nat)), (2, ⟨20, 0⟩), (3, ⟨30, 100⟩)] 50) 2 =
      some ⟨20, 0⟩ ∧
    lookupItem (cleanExpired
      [(1, (⟨10, 5⟩ : Item Nat)), (2, ⟨20, 0⟩), (3, ⟨30, 100⟩)] 50) 3 =
      some ⟨30, 100⟩ :=
  ⟨by decide,
   (claim_C5_cleanExpired [(1, ⟨10, 5⟩), (2, ⟨20, 0⟩), (3, ⟨30, 100⟩)] 50
     (by decide)).1 1 ⟨10, 5⟩ (by decide) (by decide),
   (claim_C5_cleanExpired [(1, ⟨10, 5⟩), (2, ⟨20, 0⟩), (3, ⟨30, 100⟩)] 50
     (by decide)).2 2 ⟨20, 0⟩ (by decide) (by decide),
   (claim_C5_cleanExpired [(1, ⟨10, 5⟩), (2, ⟨20, 0⟩), (3, ⟨30, 100⟩)] 50
     (by decide)).2 3 ⟨30, 100⟩ (by decide) (by decide)⟩

/-- Claim C10: expiration is strict and uniform: an entry is not expired
when `now` equals its timestamp (only `now > expiration` expires it), an
entry with expiration `0` is never expired, and `GetSafe` and `CleanExpired`
agree — through the one shared `isExpired` — on which present entries are
stale at a given instant. -/
theorem claim_C10_expiry [Inhabited V] (it : Item V) (t : Int)
    (s : Store K V) (k : K) (h : KeysNodup s) :
    (it.expiration = 0 → it.isExpired t = false) ∧
    it.isExpired it.expiration = false ∧
    (it.isExpired t = true ↔ it.expiration ≠ 0 ∧ it.expiration < t) ∧
    (∀ it', lookupItem s k = some it' →
        (lookupItem (cleanExpired s t) k = none ↔ (getSafe s k t).2 = false)) := by
  refine ⟨?_, ?_, ?_, ?_⟩
  · intro h0; simp [Item.isExpired, h0]
  · by_cases h0 : it.expiration = 0 <;> simp [Item.isExpired, h0]
  · by_cases h0 : it.expiration = 0 <;> simp [Item.isExpired, h0]
  · intro it' hl
    rw [lookupItem_cleanExpired h t k, hl]
    unfold getSafe
    rw [hl]
    by_cases hexp : it'.isExpired t = true <;> simp [hexp]

/-- Witness for C10: an entry expiring at `42` is not yet expired at
`now = 42`; a never-expiring entry is live at `10^9`; and on a concrete
store the sweep and `getSafe` agree about the stale key `1`. -/
theorem claim_C10_witness :
    KeysNodup [(1, (⟨10, 5⟩ : Item Nat))] ∧
    Item.isExpired (⟨3, 42⟩ : Item Nat) 42 = false ∧
    (Item.isExpired (⟨3, 0⟩ : Item Nat) 1000000000 = false) ∧
    (lookupItem (cleanExpired [(1, (⟨10, 5⟩ : Item Nat))] 50) 1 = none ↔
      (getSafe [(1, (⟨10, 5⟩ : Item Nat))] 1 50).2 = false) :=
  ⟨by decide,
   (claim_C10_expiry (⟨3, 42⟩ : Item Nat) 42 [(1, (⟨10, 5⟩ : Item Nat))] 1
     (by decide)).2.1,
   (claim_C10_expiry (⟨3, 0⟩ : Item Nat) 1000000000
     [(1, (⟨10, 5⟩ : Item Nat))] 1 (by decide)).1 (by decide),
   (claim_C10_expiry (⟨3, 42⟩ : Item Nat) 50 [(1, (⟨10, 5⟩ : Item Nat))] 1
     (by decide)).2.2.2 ⟨10, 5⟩ (by decide)⟩

/-- Store after `Set("a",1)` on `New(0,0,1)` (default TTL `0`, `maxSize` 1,
clock fixed at `0`). -/
def c2Step1 : Store String Nat := setWithTTLSize 1 [] "a" 1 0 0

/-- Store after the further `Set("b",2)`. -/
def c2Step2 : Store String Nat := setWithTTLSize 1 c2Step1 "b" 2 0 0

/-- Store after the further `Set("c",3)`. -/
def c2Step3 : Store String Nat := setWithTTLSize 1 c2Step2 "c" 3 0 0

/-- Store after the final `SetAll({"d":4,"e":5,"f":6})`. -/
def c2Step4 : Store String Nat :=
  setAllWithTTLSize 1 c2Step3 [("d", 4), ("e", 5), ("f", 6)] 0 0

/-- Claim C2: on `New(0,0,1)`, after `Set("a",1)`, `Set("b",2)`, `Set("c",3)`
the size is exactly `1` and the single remaining key (here `"c"`, the model's
iteration order) is one of `{a, b, c}`; the 3-entry `SetAll` then leaves size
exactly `3`. -/
theorem claim_C2_scenario :
    size c2Step3 = 1 ∧
    c2Step3.map Prod.fst = ["c"] ∧
    "c" ∈ (["a", "b", "c"] : List String) ∧
    size c2Step4 = 3 := by
  decide

/-- Claim C4: for the bounded `SetWithTTL(key, value, ttl)`: when the key is
absent and the store already holds `maxSize` entries, exactly one arbitrary
existing entry (the first in iteration order, i.e. the head) is evicted
before the insert; when the key is already present, no eviction occurs and
only that key's entry is replaced; in both cases the key maps to the given
value afterwards. -/
theorem claim_C4_setSize (maxSize : Nat) (s : Store K V) (k : K) (v : V)
    (now ttl : Int) (hMax : 0 < maxSize) :
    (lookupItem s k = none → s.length = maxSize →
        setWithTTLSize maxSize s k v now ttl =
          insertItem s.tail k ⟨v, computeExpiration now ttl⟩ ∧
        (setWithTTLSize maxSize s k v now ttl).length = maxSize ∧
        s.tail.length = s.length - 1) ∧
    ((lookupItem s k).isSome = true →
        setWithTTLSize maxSize s k v now ttl =
          insertItem s k ⟨v, computeExpiration now ttl⟩ ∧
        (setWithTTLSize maxSize s k v now ttl).length = s.length ∧
        (∀ k', k' ≠ k →
            lookupItem (setWithTTLSize maxSize s k v now ttl) k' =
              lookupItem s k')) ∧
    lookupItem (setWithTTLSize maxSize s k v now ttl) k =
      some ⟨v, computeExpiration now ttl⟩ := by
  refine ⟨?_, ?_, ?_⟩
  · intro hnone hlen
    have hcond : s.length + 1 > maxSize := by omega
    have heq : setWithTTLSize maxSize s k v now ttl =
        insertItem s.tail k ⟨v, computeExpiration now ttl⟩ := by
      simp [setWithTTLSize, hcond, hnone]
    refine ⟨heq, ?_, by simp [List.length_tail]⟩
    rw [heq, length_insertItem, lookupItem_tail_eq_none hnone]
    simp [List.length_tail]
    omega
  · intro hsome
    have heq : setWithTTLSize maxSize s k v now ttl =
        insertItem s k ⟨v, computeExpiration now ttl⟩ := by
      rcases hx : lookupItem s k with _ | it
      · rw [hx] at hsome; simp at hsome
      · by_cases hcond : s.length + 1 > maxSize <;>
          simp [setWithTTLSize, hcond, hx]
    refine ⟨heq, ?_, ?_⟩
    · rw [heq, length_insertItem, hsome]
      simp
    · intro k' hk'
      rw [heq, lookupItem_insertItem, if_neg hk']
  · have hshape : ∃ s1 : Store K V, setWithTTLSize maxSize s k v now ttl =
        insertItem s1 k ⟨v, computeExpiration now ttl⟩ := by
      unfold setWithTTLSize
      exact ⟨_, rfl⟩
    obtain ⟨s1, hs1⟩ := hshape
    rw [hs1, lookupItem_insertItem]
    simp

/-- Witness for C4 with `maxSize = 2` on the full store
`[(1,⟨10,0⟩), (2,⟨20,0⟩)]`: inserting the fresh key `3` evicts the head and
keeps the size at `2`, while overwriting the present key `2` keeps the size
at `2` and leaves key `1` untouched. -/
theorem claim_C4_witness :
    (0 : Nat) < 2 ∧
    lookupItem [(1, (⟨10, 0⟩ : Item Nat)), (2, ⟨20, 0⟩)] 3 = none ∧
    ([(1, (⟨10, 0⟩ : Item Nat)), (2, ⟨20, 0⟩)] : Store Nat Nat).length = 2 ∧
    (setWithTTLSize 2 [(1, (⟨10, 0⟩ : Item Nat)), (2, ⟨20, 0⟩)]
        3 33 0 0).length = 2 ∧
    (lookupItem [(1, (⟨10, 0⟩ : Item Nat)), (2, ⟨20, 0⟩)] 2).isSome = true ∧
    (setWithTTLSize 2 [(1, (⟨10, 0⟩ : Item Nat)), (2, ⟨20, 0⟩)]
        2 22 0 0).length = 2 ∧
    lookupItem (setWithTTLSize 2 [(1, (⟨10, 0⟩ : Item Nat)), (2, ⟨20, 0⟩)]
        2 22 0 0) 1 = lookupItem [(1, (⟨10, 0⟩ : Item Nat)), (2, ⟨20, 0⟩)] 1 ∧
    lookupItem (setWithTTLSize 2 [(1, (⟨10, 0⟩ : Item Nat)), (2, ⟨20, 0⟩)]
        2 22 0 0) 2 = some ⟨22, computeExpiration 0 0⟩ :=
  ⟨by decide, by decide, by decide,
   ((claim_C4_setSize 2 [(1, ⟨10, 0⟩), (2, ⟨20, 0⟩)] 3 33 0 0
      (by decide)).1 (by decide) (by decide)).2.1,
   by decide,
   ((claim_C4_setSize 2 [(1, ⟨10, 0⟩), (2, ⟨20, 0⟩)] 2 22 0 0
      (by decide)).2.1 (by decide)).2.1,
   ((claim_C4_setSize 2 [(1, ⟨10, 0⟩), (2, ⟨20, 0⟩)] 2 22 0 0
      (by decide)).2.1 (by decide)).2.2 1 (by decide),
   (claim_C4_setSize 2 [(1, ⟨10, 0⟩), (2, ⟨20, 0⟩)] 2 22 0 0
      (by decide)).2.2⟩

omit [DecidableEq K] in
/-- Claim C9: `Close` is idempotent: the first call stops the sweep task when
one is running (clearing the `running` flag and signalling `done` exactly
once) and empties the store; a second call neither panics (`closeCache`
still returns `some`) nor signals again, and the store is empty after every
call.  The hypothesis — `running` implies the `done` channel is still open —
holds for every cache built by `New` and is preserved by `Close`. -/
theorem claim_C9_close (c : CState K V)
    (h : c.running = true → c.doneClosed = false) :
    ∃ c1 c2, closeCache c = some c1 ∧ closeCache c1 = some c2 ∧
      c1.items = [] ∧ c2.items = [] ∧ c1.running = false ∧
      c2.stopSignals = c1.stopSignals ∧
      (c.running = true → c1.stopSignals = c.stopSignals + 1) ∧
      (c.running = false → c1.stopSignals = c.stopSignals) := by
  by_cases hr : c.running = true
  · refine ⟨⟨[], false, true, c.stopSignals + 1⟩,
      ⟨[], false, true, c.stopSignals + 1⟩, ?_, ?_, rfl, rfl, rfl, rfl, ?_, ?_⟩
    · simp [closeCache, hr, h hr]
    · simp [closeCache]
    · intro _; rfl
    · intro hf; rw [hr] at hf; cases hf
  · have hr' : c.running = false := by
      cases hb : c.running
      · rfl
      · exact absurd hb hr
    refine ⟨{ c with items := [] }, { c with items := [] },
      ?_, ?_, rfl, rfl, hr', rfl, ?_, ?_⟩
    · simp [closeCache, hr']
    · simp [closeCache, hr']
    · intro hf; rw [hr'] at hf; cases hf
    · intro _; rfl

/-- Witness for C9: a cache built by `New` with a positive cleanup interval
(`running = true`, `done` open) can be closed twice without panic. -/
theorem claim_C9_witness :
    ((newCache 5 : CState Nat Nat).running = true →
      (newCache 5 : CState Nat Nat).doneClosed = false) ∧
    (∃ c1 c2, closeCache (newCache 5 : CState Nat Nat) = some c1 ∧
      closeCache c1 = some c2 ∧
      c1.items = [] ∧ c2.items = [] ∧ c1.running = false ∧
      c2.stopSignals = c1.stopSignals ∧
      ((newCache 5 : CState Nat Nat).running = true →
        c1.stopSignals = (newCache 5 : CState Nat Nat).stopSignals + 1) ∧
      ((newCache 5 : CState Nat Nat).running = false →
        c1.stopSignals = (newCache 5 : CState Nat Nat).stopSignals)) :=
  ⟨fun _ => rfl, claim_C9_close (newCache 5) (fun _ => rfl)⟩

/-- Claim C3: for the bounded `SetAllWithTTL(map, ttl)`: when
`size + len(map) > maxSize` the overflow `x = size + len(map) - maxSize` is
computed from `len(map)` with no key deduplication (visible in the
definition of `setAllWithTTLSize`); if `x ≥ size` the entire store is
cleared, otherwise exactly `x` existing entries (the first `x` in iteration
order) are evicted; afterwards every batch entry is inserted with the one
shared expiration timestamp; when `size + len(map) ≤ maxSize` no entry is
evicted. -/
theorem claim_C3_setAllSize (maxSize : Nat) (s : Store K V)
    (m : List (K × V)) (now ttl : Int) (hm : (m.map Prod.fst).Nodup) :
    (s.length + m.length > maxSize →
      s.length ≤ s.length + m.length - maxSize →
        setAllWithTTLSize maxSize s m now ttl =
          insertAll [] m (computeExpiration now ttl)) ∧
    (s.length + m.length > maxSize →
      s.length + m.length - maxSize < s.length →
        setAllWithTTLSize maxSize s m now ttl =
          insertAll (s.drop (s.length + m.length - maxSize)) m
            (computeExpiration now ttl) ∧
        (s.drop (s.length + m.length - maxSize)).length =
          s.length - (s.length + m.length - maxSize) ∧
        List.Sublist (s.drop (s.length + m.length - maxSize)) s) ∧
    (s.length + m.length ≤ maxSize →
        setAllWithTTLSize maxSize s m now ttl =
          insertAll s m (computeExpiration now ttl) ∧
        ∀ k, k ∉ m.map Prod.fst →
          lookupItem (setAllWithTTLSize maxSize s m now ttl) k =
            lookupItem s k) ∧
    (∀ k v, (k, v) ∈ m →
        lookupItem (setAllWithTTLSize maxSize s m now ttl) k =
          some ⟨v, computeExpiration now ttl⟩) := by
  refine ⟨?_, ?_, ?_, ?_⟩
  · intro h1 h2
    simp [setAllWithTTLSize, h1, h2]
  · intro h1 h2
    have h2' : ¬ s.length ≤ s.length + m.length - maxSize := by omega
    exact ⟨by simp [setAllWithTTLSize, h1, h2'],
      by simp [List.length_drop], List.drop_sublist _ _⟩
  · intro h1
    have h1' : ¬ s.length + m.length > maxSize := by omega
    have heq : setAllWithTTLSize maxSize s m now ttl =
        insertAll s m (computeExpiration now ttl) := by
      simp [setAllWithTTLSize, h1']
    refine ⟨heq, ?_⟩
    intro k hk
    rw [heq]
    exact lookupItem_insertAll_not_mem m s _ k hk
  · intro k v hkv
    have hshape : ∃ s1 : Store K V, setAllWithTTLSize maxSize s m now ttl =
        insertAll s1 m (computeExpiration now ttl) := by
      unfold setAllWithTTLSize
      exact ⟨_, rfl⟩
    obtain ⟨s1, hs1⟩ := hshape
    rw [hs1]
    exact lookupItem_insertAll_mem m hm s1 _ k v hkv

/-- Witness for C3 with `maxSize = 2`: a 1-entry batch over a full 2-entry
store takes the evict-`x` path; a 3-entry batch over a 1-entry store takes
the clear-all path; and the batch entry `5` ends up stored with the shared
timestamp. -/
theorem claim_C3_witness :
    (([(3, 33)] : List (Nat × Nat)).map Prod.fst).Nodup ∧
    2 + 1 > 2 ∧ 2 + 1 - 2 < 2 ∧
    setAllWithTTLSize 2 [(1, (⟨10, 0⟩ : Item Nat)), (2, ⟨20, 0⟩)]
        [(3, 33)] 0 0 =
      insertAll ([(1, (⟨10, 0⟩ : Item Nat)), (2, ⟨20, 0⟩)].drop (2 + 1 - 2))
        [(3, 33)] (computeExpiration 0 0) ∧
    (([(5, 55), (6, 66), (7, 77)] : List (Nat × Nat)).map Prod.fst).Nodup ∧
    1 + 3 > 2 ∧ 1 ≤ 1 + 3 - 2 ∧
    setAllWithTTLSize 2 [(1, (⟨10, 0⟩ : Item Nat))]
        [(5, 55), (6, 66), (7, 77)] 0 0 =
      insertAll [] [(5, 55), (6, 66), (7, 77)] (computeExpiration 0 0) ∧
    lookupItem (setAllWithTTLSize 2 [(1, (⟨10, 0⟩ : Item Nat))]
        [(5, 55), (6, 66), (7, 77)] 0 0) 5 =
      some ⟨55, computeExpiration 0 0⟩ :=
  ⟨by decide, by decide, by decide,
   (((claim_C3_setAllSize 2 [(1, ⟨10, 0⟩), (2, ⟨20, 0⟩)] [(3, 33)] 0 0
      (by decide)).2.1 (by decide) (by decide)).1),
   by decide, by decide, by decide,
   ((claim_C3_setAllSize 2 [(1, ⟨10, 0⟩)] [(5, 55), (6, 66), (7, 77)] 0 0
      (by decide)).1 (by decide) (by decide)),
   ((claim_C3_setAllSize 2 [(1, ⟨10, 0⟩)] [(5, 55), (6, 66), (7, 77)] 0 0
      (by decide)).2.2.2 5 55 (by decide))⟩

/-- Claim C1 fails as stated: on a cache built with `maxSize = 1` (so
`M = 1 > 0`), the batch write `SetAll({"d":4,"e":5,"f":6})` — a batch with
`len(map) = 3 > M` — returns with `Size() = 3 > 1`, exactly the outcome the
repository's own test `TestWithSize` expects ("tady to maximalni velikost
preroste"). -/
theorem claim_C1_counterexample :
    (setAllWithTTLSize 1 ([] : Store String Nat)
        [("d", 4), ("e", 5), ("f", 6)] 0 0).length = 3 ∧
    ¬ (setAllWithTTLSize 1 ([] : Store String Nat)
        [("d", 4), ("e", 5), ("f", 6)] 0 0).length ≤ 1 := by
  decide

/-- Claim C1 amended: for the bounded variant with `maxSize = M > 0`,
`Size() ≤ M` holds after `Set`/`SetWithTTL` returns provided it held before
the call, and after `SetAll`/`SetAllWithTTL` returns provided the batch has
`len(map) ≤ M`; a batch with `len(map) > M` can leave `Size() > M`. -/
theorem claim_C1_amended (maxSize : Nat) (hMax : 0 < maxSize)
    (s : Store K V) (k : K) (v : V) (m : List (K × V)) (now ttl : Int) :
    (s.length ≤ maxSize →
        (setWithTTLSize maxSize s k v now ttl).length ≤ maxSize) ∧
    (m.length ≤ maxSize →
        (setAllWithTTLSize maxSize s m now ttl).length ≤ maxSize) := by
  constructor
  · intro hs
    by_cases hcond : s.length + 1 > maxSize
    · rcases hx : lookupItem s k with _ | it
      · have heq : setWithTTLSize maxSize s k v now ttl =
            insertItem s.tail k ⟨v, computeExpiration now ttl⟩ := by
          simp [setWithTTLSize, hcond, hx]
        have h1 := length_insertItem_le s.tail k ⟨v, computeExpiration now ttl⟩
        have h2 : s.tail.length = s.length - 1 := List.length_tail s
        rw [heq]
        omega
      · have heq : setWithTTLSize maxSize s k v now ttl =
            insertItem s k ⟨v, computeExpiration now ttl⟩ := by
          simp [setWithTTLSize, hcond, hx]
        rw [heq, length_insertItem, hx]
        simpa using hs
    · have heq : setWithTTLSize maxSize s k v now ttl =
          insertItem s k ⟨v, computeExpiration now ttl⟩ := by
        simp [setWithTTLSize, hcond]
      have h1 := length_insertItem_le s k ⟨v, computeExpiration now ttl⟩
      rw [heq]
      omega
  · intro hmle
    by_cases h1 : s.length + m.length > maxSize
    · by_cases h2 : s.length ≤ s.length + m.length - maxSize
      · have heq : setAllWithTTLSize maxSize s m now ttl =
            insertAll [] m (computeExpiration now ttl) := by
          simp [setAllWithTTLSize, h1, h2]
        have hle := length_insertAll_le m [] (computeExpiration now ttl)
        simp only [List.length_nil, Nat.zero_add] at hle
        rw [heq]
        omega
      · have heq : setAllWithTTLSize maxSize s m now ttl =
            insertAll (s.drop (s.length + m.length - maxSize)) m
              (computeExpiration now ttl) := by
          simp [setAllWithTTLSize, h1, h2]
        have hle := length_insertAll_le m
          (s.drop (s.length + m.length - maxSize)) (computeExpiration now ttl)
        have hdrop : (s.drop (s.length + m.length - maxSize)).length =
            s.length - (s.length + m.length - maxSize) := by
          simp [List.length_drop]
        rw [heq]
        omega
    · have heq : setAllWithTTLSize maxSize s m now ttl =
          insertAll s m (computeExpiration now ttl) := by
        simp [setAllWithTTLSize, h1]
      have hle := length_insertAll_le m s (computeExpiration now ttl)
      rw [heq]
      omega

/-- Witness for the amended C1 with `maxSize = 1`: overwriting a full
1-entry store with a fresh key keeps the size within the bound, and a
1-entry batch (`len(map) = 1 ≤ M`) does too. -/
theorem claim_C1_witness :
    (0 : Nat) < 1 ∧
    ([("a", (⟨1, 0⟩ : Item Nat))] : Store String Nat).length ≤ 1 ∧
    (setWithTTLSize 1 [("a", (⟨1, 0⟩ : Item Nat))] "b" 2 0 0).length ≤ 1 ∧
    ([(("d" : String), (4 : Nat))]).length ≤ 1 ∧
    (setAllWithTTLSize 1 [("a", (⟨1, 0⟩ : Item Nat))] [("d", 4)] 0 0).length ≤ 1 :=
  ⟨by decide, by decide,
   (claim_C1_amended 1 (by decide) [("a", ⟨1, 0⟩)] "b" 2 [("d", 4)] 0 0).1
     (by decide),
   by decide,
   (claim_C1_amended 1 (by decide) [("a", ⟨1, 0⟩)] "b" 2 [("d", 4)] 0 0).2
     (by decide)⟩

end Claims

end GoCache
